import Mathlib

/-!
Verification of the Sweedle backend's job pipeline core.

The definitions below are shallow embeddings of:
  * src/backend/src/core/queue.py            (JobQueue and friends)
  * src/backend/src/pipeline/service.py      (PipelineService VRAM residency)
  * src/backend/src/inference/pipeline.py    (the sticky initialization flag)
  * src/backend/src/workflow/service.py      (workflow stage progression)
  * src/backend/src/core/websocket_manager.py (WebSocketManager pub/sub)

Mutable Python `Job` objects are shared by reference between the registry
dict `_jobs`, the heap inside `asyncio.PriorityQueue`, and `_current_job`.
The embedding makes the registry the single owner of each job record; the
heap is a list of the immutable ordering keys (priority value, creation
time, id) that `Job.__lt__` reads, and `_current_job` is kept as the id the
code compares/reports it by.  `datetime.utcnow()` values are modelled as
Nat ticks passed into each operation.  Every operation body runs under the
queue's asyncio lock, so a run of the system is a sequence of whole
operations.
-/

namespace Sweedle

/-- JobStatus from core/queue.py. -/
inductive JobStatus where
  | pending
  | processing
  | completed
  | failed
  | cancelled
deriving DecidableEq, Repr

/-- JobPriority from core/queue.py: an int enum, lower value = higher priority. -/
inductive JobPriority where
  | high
  | normal
  | low
deriving DecidableEq, Repr

/-- The numeric value of a JobPriority (HIGH = 0, NORMAL = 1, LOW = 2). -/
def JobPriority.val : JobPriority → Nat
  | .high => 0
  | .normal => 1
  | .low => 2

/-- The Job dataclass from core/queue.py.  `progress` is a Python float whose
only mutations are clamping into [0,1] and assignment of 1.0, all exact, so
it is modelled as a rational.  `payload` and `result` are opaque to the
queue and modelled as strings. -/
structure Job where
  id : String
  jobType : String
  payload : String
  priority : JobPriority
  createdAt : Nat
  startedAt : Option Nat := none
  completedAt : Option Nat := none
  status : JobStatus := JobStatus.pending
  progress : ℚ := 0
  stage : String := "pending"
  error : Option String := none
  result : Option String := none
deriving DecidableEq, Repr

/-- Job.__lt__ from core/queue.py: compare priority values, ties broken by
creation time. -/
def Job.lt (a b : Job) : Bool :=
  if a.priority ≠ b.priority then decide (a.priority.val < b.priority.val)
  else decide (a.createdAt < b.createdAt)

/-- The fields of a queued Job that `Job.__lt__` reads, plus its id.  These
fields are never mutated after construction, so the heap inside
`asyncio.PriorityQueue` is modelled as a list of these keys. -/
structure QEntry where
  pval : Nat
  created : Nat
  id : String
deriving DecidableEq, Repr

/-- The ordering key of a job as it sits in the priority queue. -/
def Job.entry (j : Job) : QEntry := ⟨j.priority.val, j.createdAt, j.id⟩

/-- Job.__lt__ restated on queue entries (what heapq compares). -/
def entryLt (a b : QEntry) : Bool :=
  if a.pval ≠ b.pval then decide (a.pval < b.pval) else decide (a.created < b.created)

/-- `heapq` pops a minimal element under `__lt__`.  The embedding resolves
ties (equal priority and creation time) to the leftmost minimal element;
no claim depends on the tie case. -/
def popMin : List QEntry → Option (QEntry × List QEntry)
  | [] => none
  | x :: xs =>
    match popMin xs with
    | none => some (x, [])
    | some (m, ys) => if entryLt m x then some (m, x :: ys) else some (x, xs)

/-- Lookup in the `_jobs` dict (insertion-ordered association list with
unique keys, enforced by the duplicate check in `enqueue`). -/
def lookupJob : List (String × Job) → String → Option Job
  | [], _ => none
  | p :: rest, jobId => if p.1 = jobId then some p.2 else lookupJob rest jobId

/-- In-place mutation of the job registered under `jobId` (Python mutates
the shared Job object; the registry owns the record here). -/
def setJob (jobs : List (String × Job)) (jobId : String) (j : Job) : List (String × Job) :=
  jobs.map (fun p => if p.1 = jobId then (p.1, j) else p)

/-- The JobQueue state from core/queue.py. -/
structure JobQueue where
  queue : List QEntry
  jobs : List (String × Job)
  currentJob : Option String
  maxSize : Nat
  completedCount : Nat
  failedCount : Nat
deriving DecidableEq, Repr

/-- JobQueue.__init__ (max_size defaults to 100 at the call sites). -/
def JobQueue.mkEmpty (maxSize : Nat) : JobQueue := ⟨[], [], none, maxSize, 0, 0⟩

/-- `self._jobs.get(job_id)`. -/
def JobQueue.find (q : JobQueue) (jobId : String) : Option Job :=
  lookupJob q.jobs jobId

/-- Outcome of `JobQueue.enqueue`.  `duplicate` is the ValueError raised for
an already-registered id (registry untouched).  `blockedFull` is the state
in which `await self._queue.put(job)` suspends because the bounded queue is
at capacity: at that point the job has already been inserted into `_jobs`
but not into the queue, and the coroutine waits for space - no exception
is raised. -/
inductive EnqueueResult where
  | ok (job : Job) (q : JobQueue)
  | duplicate (q : JobQueue)
  | blockedFull (q : JobQueue)
deriving DecidableEq, Repr

/-- The Job record that enqueue constructs (the dataclass defaults fill the
remaining fields). -/
def newJob (jobId jobType payload : String) (priority : JobPriority) (now : Nat) : Job :=
  { id := jobId, jobType := jobType, payload := payload,
    priority := priority, createdAt := now }

/-- JobQueue.enqueue from core/queue.py.  `asyncio.Queue.full()` is
`0 < maxsize` and `maxsize ≤ qsize()`. -/
def JobQueue.enqueue (q : JobQueue) (jobId jobType payload : String)
    (priority : JobPriority) (now : Nat) : EnqueueResult :=
  let job : Job := newJob jobId jobType payload priority now
  if (q.find jobId).isSome then EnqueueResult.duplicate q
  else
    let q1 : JobQueue := { q with jobs := q.jobs ++ [(jobId, job)] }
    if 0 < q.maxSize ∧ q.maxSize ≤ q1.queue.length then EnqueueResult.blockedFull q1
    else EnqueueResult.ok job { q1 with queue := q1.queue ++ [job.entry] }

/-- True exactly for a successful enqueue. -/
def EnqueueResult.isOk : EnqueueResult → Bool
  | .ok _ _ => true
  | _ => false

/-- True exactly when the call suspends in `await self._queue.put(job)`. -/
def EnqueueResult.isBlockedFull : EnqueueResult → Bool
  | .blockedFull _ => true
  | _ => false

/-- The queue state carried by an enqueue outcome (for `blockedFull`, the
state at the moment the coroutine suspends). -/
def EnqueueResult.state : EnqueueResult → JobQueue
  | .ok _ q => q
  | .duplicate q => q
  | .blockedFull q => q

/-- The field assignments dequeue performs on the popped job: status
Processing and a start timestamp. -/
def processingJob (job : Job) (now : Nat) : Job :=
  { job with status := JobStatus.processing, startedAt := some now }

/-- The body of JobQueue.dequeue: pop the minimum; a job found Cancelled is
discarded (`task_done`) and the call retries transparently; otherwise the
popped job becomes Processing and the current job.  The tail recursion of
the source is bounded here by the queue length; an empty queue means
`await self._queue.get()` suspends, modelled as `none`.  Under the modelled
operations every queued id stays registered (the registry never shrinks);
an unregistered entry is discarded like a stale pop. -/
def JobQueue.dequeueLoop (now : Nat) : Nat → JobQueue → Option (Job × JobQueue)
  | 0, _ => none
  | fuel + 1, q =>
    match popMin q.queue with
    | none => none
    | some (e, rest) =>
      match lookupJob q.jobs e.id with
      | none => JobQueue.dequeueLoop now fuel { q with queue := rest }
      | some job =>
        if job.status = JobStatus.cancelled then
          JobQueue.dequeueLoop now fuel { q with queue := rest }
        else
          some (processingJob job now,
                { q with queue := rest, jobs := setJob q.jobs e.id (processingJob job now),
                         currentJob := some e.id })

/-- JobQueue.dequeue from core/queue.py. -/
def JobQueue.dequeue (q : JobQueue) (now : Nat) : Option (Job × JobQueue) :=
  JobQueue.dequeueLoop now q.queue.length q

/-- Python truthiness of the optional `error` string: `not error` is true
for both None and the empty string. -/
def errTruthy : Option String → Bool
  | none => false
  | some s => !s.isEmpty

/-- JobQueue.complete from core/queue.py.  No status check: the terminal
fields are (re)assigned and a counter incremented on every call that finds
the job. -/
def JobQueue.complete (q : JobQueue) (jobId : String) (result : Option String)
    (error : Option String) (now : Nat) : JobQueue :=
  match q.find jobId with
  | none => q
  | some job =>
    let job1 : Job :=
      { job with completedAt := some now, result := result, error := error,
                 progress := if errTruthy error then job.progress else 1,
                 status := if errTruthy error then JobStatus.failed else JobStatus.completed }
    let q1 : JobQueue :=
      { q with jobs := setJob q.jobs jobId job1,
               completedCount := if errTruthy error then q.completedCount
                                 else q.completedCount + 1,
               failedCount := if errTruthy error then q.failedCount + 1 else q.failedCount }
    if q1.currentJob = some jobId then { q1 with currentJob := none } else q1

/-- The field assignments update_progress performs: the fraction clamped
into [0,1] by `min(max(progress, 0.0), 1.0)`, and the stage label replaced
only when the argument is truthy (non-empty). -/
def progressedJob (job : Job) (progress : ℚ) (stage : String) : Job :=
  let lower : ℚ := if progress < 0 then 0 else progress
  { job with progress := if 1 < lower then 1 else lower,
             stage := if stage.isEmpty then job.stage else stage }

/-- JobQueue.update_progress from core/queue.py. -/
def JobQueue.update_progress (q : JobQueue) (jobId : String) (progress : ℚ)
    (stage : String) : JobQueue :=
  match q.find jobId with
  | none => q
  | some job => { q with jobs := setJob q.jobs jobId (progressedJob job progress stage) }

/-- The field assignments cancel performs on a Pending job: status
Cancelled, completion timestamp, synthetic error string. -/
def cancelledJob (job : Job) (now : Nat) : Job :=
  { job with status := JobStatus.cancelled, completedAt := some now,
             error := some "Cancelled by user" }

/-- JobQueue.cancel from core/queue.py: only a Pending job is cancelled. -/
def JobQueue.cancel (q : JobQueue) (jobId : String) (now : Nat) : Bool × JobQueue :=
  match q.find jobId with
  | none => (false, q)
  | some job =>
    if job.status ≠ JobStatus.pending then (false, q)
    else (true, { q with jobs := setJob q.jobs jobId (cancelledJob job now) })

/-- The dictionary returned by JobQueue.get_status. -/
structure QueueStatus where
  queueSize : Nat
  currentJobId : Option String
  pendingCount : Nat
  processingCount : Nat
  completedCount : Nat
  failedCount : Nat
  totalJobs : Nat
deriving DecidableEq, Repr

/-- JobQueue.get_status from core/queue.py. -/
def JobQueue.get_status (q : JobQueue) : QueueStatus :=
  { queueSize := q.queue.length,
    currentJobId := q.currentJob,
    pendingCount := q.jobs.countP (fun p => p.2.status == JobStatus.pending),
    processingCount := if q.currentJob.isSome then 1 else 0,
    completedCount := q.completedCount,
    failedCount := q.failedCount,
    totalJobs := q.jobs.length }

/-- One externally invokable queue operation (the set the claims quantify
over), carrying the wall-clock tick at which it runs. -/
inductive QOp where
  | enqueue (jobId jobType payload : String) (priority : JobPriority) (now : Nat)
  | dequeue (now : Nat)
  | complete (jobId : String) (result error : Option String) (now : Nat)
  | updateProgress (jobId : String) (progress : ℚ) (stage : String)
  | cancel (jobId : String) (now : Nat)

/-- Apply one operation, projecting away the returned value.  A blocked
enqueue has, at the point it suspends, already registered the job; a
blocked (empty-queue) dequeue has changed nothing. -/
def applyOp (q : JobQueue) : QOp → JobQueue
  | .enqueue jobId jobType payload priority now =>
    (q.enqueue jobId jobType payload priority now).state
  | .dequeue now =>
    match q.dequeue now with
    | none => q
    | some (_, q') => q'
  | .complete jobId result error now => q.complete jobId result error now
  | .updateProgress jobId progress stage => q.update_progress jobId progress stage
  | .cancel jobId now => (q.cancel jobId now).2

/-- The state after an interleaving of operations on a fresh queue. -/
def runOps (maxSize : Nat) (ops : List QOp) : JobQueue :=
  ops.foldl applyOp (JobQueue.mkEmpty maxSize)

/-!
Model-lifecycle manager: src/backend/src/pipeline/service.py together with
the residency fields of src/backend/src/inference/pipeline.py.  The "slots"
are the nullable instance fields `_shape_pipeline` and `_texture_pipeline`
of the global Hunyuan3DPipeline, plus its `_initialized` flag, which
`initialize()` sets once and nothing ever resets.  `get_status` in the
service reports a slot as loaded exactly when its field is not None.
Actual device memory numbers are reported from torch and are outside this
embedding; `textureEnabled` stands for `settings.ENABLE_TEXTURE_PIPELINE`
together with the texture load succeeding (the success path of
`_load_models`).
-/

/-- The residency-relevant state of the Hunyuan3DPipeline singleton. -/
structure PipelineState where
  shapeLoaded : Bool
  textureLoaded : Bool
  initDone : Bool
deriving DecidableEq, Repr

/-- The fields as constructed in Hunyuan3DPipeline.__init__. -/
def PipelineState.fresh : PipelineState := ⟨false, false, false⟩

/-- Hunyuan3DPipeline.initialize(): a no-op when `_initialized` is already
set; otherwise `_load_models()` loads the shape pipeline and, when enabled
and successful, the texture pipeline, then sets `_initialized = True`. -/
def PipelineState.initModels (textureEnabled : Bool) (s : PipelineState) : PipelineState :=
  if s.initDone then s
  else { shapeLoaded := true, textureLoaded := textureEnabled, initDone := true }

/-- PipelineService.prepare_for_stage from pipeline/service.py, restricted
to its effect on residency state.  The "mesh" branch moves a loaded texture
pipeline to the CPU without clearing `_texture_pipeline`, then calls
`initialize()` only when `is_initialized` is false; the "texture" and
"rigging" branches clear `_shape_pipeline`; "export" calls `unload_all`,
which clears both fields; an unknown stage changes nothing. -/
def prepare_for_stage (textureEnabled : Bool) (s : PipelineState) (stage : String) :
    PipelineState :=
  if stage = "mesh" then
    if !s.initDone then s.initModels textureEnabled else s
  else if stage = "texture" then
    { s with shapeLoaded := false }
  else if stage = "rigging" then
    { s with shapeLoaded := false }
  else if stage = "export" then
    { s with shapeLoaded := false, textureLoaded := false }
  else s

/-- The residency part of the dictionary built by PipelineService.get_status
(the VRAM figures come from torch and are not modelled). -/
structure PipelineStatus where
  shape_loaded : Bool
  texture_loaded : Bool
  ready_for_stage : String
deriving DecidableEq, Repr

/-- PipelineService.get_status from pipeline/service.py. -/
def pipelineStatus (s : PipelineState) : PipelineStatus :=
  { shape_loaded := s.shapeLoaded,
    texture_loaded := s.textureLoaded,
    ready_for_stage :=
      if !s.shapeLoaded && !s.textureLoaded then "upload"
      else if s.shapeLoaded && !s.textureLoaded then "mesh"
      else if s.textureLoaded && !s.shapeLoaded then "texture"
      else "unknown" }

/-!
Workflow state machine: src/backend/src/workflow/service.py.  The asset is
abstracted to its persisted `workflow_stage` value (a missing value is read
as Uploaded by `approve_stage`).
-/

/-- Modelled from the spec: the WorkflowStage enum is imported by
workflow/service.py from src/backend/src/generation/models.py, which does
not declare it in the provided sources.  Its seven values follow the spec's
stage table and the WorkflowStageType literals in workflow/schemas.py. -/
inductive WorkflowStage where
  | uploaded
  | meshGenerated
  | meshApproved
  | textured
  | textureApproved
  | rigged
  | exported
deriving DecidableEq, Repr

/-- STAGE_ORDER from workflow/service.py. -/
def STAGE_ORDER : List WorkflowStage :=
  [.uploaded, .meshGenerated, .meshApproved, .textured, .textureApproved, .rigged, .exported]

/-- The decision chain of WorkflowService.approve_stage (the chained `elif`s
determining `next_stage` from the current stage; Exported yields none). -/
def approveNextStage : WorkflowStage → Option WorkflowStage
  | .uploaded => some .meshGenerated
  | .meshGenerated => some .meshApproved
  | .meshApproved => some .textured
  | .textured => some .textureApproved
  | .textureApproved => some .rigged
  | .rigged => some .exported
  | .exported => none

/-- WorkflowService.approve_stage on an existing asset: returns the new
persisted stage and the `next_stage` field of the response (None at
Exported, where the stage is left unchanged). -/
def approve_stage (s : WorkflowStage) : WorkflowStage × Option WorkflowStage :=
  match approveNextStage s with
  | some n => (n, some n)
  | none => (s, none)

/-- The persisted stage after `n` successive approve_stage calls. -/
def approveIter : Nat → WorkflowStage → WorkflowStage
  | 0, s => s
  | n + 1, s => approveIter n (approve_stage s).1

/-!
Progress hub: src/backend/src/core/websocket_manager.py.  Connection
handles are modelled as naturals; `_connections` is a set and
`_subscriptions` a dict from job id to set, both modelled as lists with
set-like insertion.  `broadcast` takes the set of connections whose
`send_text` raises as an external parameter and disconnects exactly
those. -/

/-- The WebSocketManager state. -/
structure WSManager where
  connections : List Nat
  subscriptions : List (String × List Nat)
deriving DecidableEq, Repr

/-- WebSocketManager.__init__. -/
def WSManager.mkEmpty : WSManager := ⟨[], []⟩

/-- `set.add`: insert if absent. -/
def addConn (w : Nat) (l : List Nat) : List Nat := if w ∈ l then l else l ++ [w]

/-- WebSocketManager.connect (after `websocket.accept()`). -/
def WSManager.connect (m : WSManager) (w : Nat) : WSManager :=
  { m with connections := addConn w m.connections }

/-- WebSocketManager.disconnect: discard from `_connections`, discard from
every subscription set, and delete subscription entries left empty. -/
def WSManager.disconnect (m : WSManager) (w : Nat) : WSManager :=
  { connections := m.connections.filter (fun x => decide (x ≠ w)),
    subscriptions :=
      (m.subscriptions.map (fun p => (p.1, p.2.filter (fun x => decide (x ≠ w))))).filter
        (fun p => !p.2.isEmpty) }

/-- WebSocketManager.subscribe: create the job's set if missing, then add
the connection - with no check that it is a live connection. -/
def WSManager.subscribe (m : WSManager) (w : Nat) (jobId : String) : WSManager :=
  { m with subscriptions :=
      if (m.subscriptions.find? (fun p => p.1 == jobId)).isSome then
        m.subscriptions.map (fun p => if p.1 = jobId then (p.1, addConn w p.2) else p)
      else m.subscriptions ++ [(jobId, [w])] }

/-- WebSocketManager.unsubscribe: discard from the job's set if present and
delete the entry when it becomes empty. -/
def WSManager.unsubscribe (m : WSManager) (w : Nat) (jobId : String) : WSManager :=
  let discarded :=
    m.subscriptions.map
      (fun p => if p.1 = jobId then (p.1, p.2.filter (fun x => decide (x ≠ w))) else p)
  { m with subscriptions := discarded.filter (fun p => !(p.1 == jobId && p.2.isEmpty)) }

/-- WebSocketManager.broadcast restricted to its state effect: every live
connection whose send fails is disconnected (lazy cleanup); `failed` is the
set of connections that raise. -/
def WSManager.broadcast (m : WSManager) (failed : List Nat) : WSManager :=
  (m.connections.filter (fun x => failed.contains x)).foldl WSManager.disconnect m

/-- The subscription-map consistency invariant of the spec, as an
executable check: every connection in any subscription set is live. -/
def WSManager.invB (m : WSManager) : Bool :=
  m.subscriptions.all (fun p => p.2.all (fun w => decide (w ∈ m.connections)))

/-- Manager states reachable by sequences in which each subscribe is issued
for a currently-live connection (connect/disconnect/unsubscribe/broadcast
are unrestricted). -/
inductive WSReach : WSManager → Prop where
  | start : WSReach WSManager.mkEmpty
  | connect (m : WSManager) (w : Nat) : WSReach m → WSReach (m.connect w)
  | disconnect (m : WSManager) (w : Nat) : WSReach m → WSReach (m.disconnect w)
  | subscribe (m : WSManager) (w : Nat) (jobId : String) :
      WSReach m → w ∈ m.connections → WSReach (m.subscribe w jobId)
  | unsubscribe (m : WSManager) (w : Nat) (jobId : String) :
      WSReach m → WSReach (m.unsubscribe w jobId)
  | broadcast (m : WSManager) (failed : List Nat) : WSReach m → WSReach (m.broadcast failed)

/-! Concrete runs used by the counterexample and code-bug theorems. -/

/-- First enqueue into a queue of capacity 1. -/
def c3r1 : EnqueueResult :=
  JobQueue.enqueue (JobQueue.mkEmpty 1) "a" "t" "p" JobPriority.normal 0

/-- The state after that first enqueue. -/
def c3q1 : JobQueue := c3r1.state

/-- Second enqueue, issued while the bounded queue is at capacity. -/
def c3r2 : EnqueueResult := JobQueue.enqueue c3q1 "b" "t" "p" JobPriority.normal 1

/-- C3: `enqueue` on a full queue does not fail with QueueFull; the
docstring of JobQueue.enqueue promises `asyncio.QueueFull`, but the body
calls `await self._queue.put(job)`, which suspends until space frees - and
it has already inserted the job into the `_jobs` registry before that
point, so the registry is not left unchanged either. -/
theorem enqueue_full_blocks_after_registration :
    c3r1.isOk = true ∧ c3q1.jobs.length = 1
      ∧ c3r2.isBlockedFull = true ∧ c3r2.state.jobs.length = 2 := by decide

/-- The state after enqueuing job "j" and completing it while it is still
Pending in the queue (complete performs no status check). -/
def c2mid : JobQueue :=
  runOps 100 [.enqueue "j" "t" "p" JobPriority.normal 0, .complete "j" none none 1]

/-- The same run followed by a dequeue, which pops the already-Completed
job and marks it Processing. -/
def c2fin : JobQueue :=
  runOps 100 [.enqueue "j" "t" "p" JobPriority.normal 0, .complete "j" none none 1,
              .dequeue 2]

/-- C2 counterexample: a job completed while still queued has terminal
status Completed, and the next dequeue moves it back to Processing - a job
can leave a terminal status, so the claimed one-directional transition
diagram is violated. -/
theorem completed_job_redequeued_to_processing :
    (c2mid.find "j").map Job.status = some JobStatus.completed
      ∧ (c2fin.find "j").map Job.status = some JobStatus.processing := by decide

/-- The state after enqueue, dequeue and one complete of job "j". -/
def c5q1 : JobQueue :=
  runOps 100 [.enqueue "j" "t" "p" JobPriority.normal 0, .dequeue 1,
              .complete "j" none none 2]

/-- One more complete of the same job. -/
def c5q2 : JobQueue := applyOp c5q1 (.complete "j" none none 3)

/-- C5 counterexample: the second complete("j") is not a no-op - it
increments the completed counter again (no status check guards the
counter), taking it to 2 for a single job. -/
theorem second_complete_increments_counter :
    c5q1.completedCount = 1 ∧ c5q2.completedCount = 2
      ∧ (c5q2.find "j").map Job.status = some JobStatus.completed := by decide

/-- The state after enqueuing "a" and cancelling it. -/
def c6q : JobQueue := runOps 100 [.enqueue "a" "t" "p" JobPriority.normal 0, .cancel "a" 1]

/-- C6 counterexample: after enqueue + cancel, the four counters reported
by get_status sum to 0 while total_jobs is 1 - the cancelled job is
accounted by none of them. -/
theorem status_counters_miss_cancelled :
    (c6q.get_status).pendingCount + (c6q.get_status).processingCount
        + (c6q.get_status).completedCount + (c6q.get_status).failedCount
        ≠ (c6q.get_status).totalJobs
      ∧ (c6q.get_status).pendingCount = 0 ∧ (c6q.get_status).processingCount = 0
      ∧ (c6q.get_status).completedCount = 0 ∧ (c6q.get_status).failedCount = 0
      ∧ (c6q.get_status).totalJobs = 1 := by decide

/-- Residency after prepare_for_stage("mesh") on a fresh pipeline (texture
pipeline enabled): initialize() loads both slots. -/
def c7s1 : PipelineState := prepare_for_stage true PipelineState.fresh "mesh"

/-- ... then prepare_for_stage("texture"): the shape slot is cleared. -/
def c7s2 : PipelineState := prepare_for_stage true c7s1 "texture"

/-- ... then prepare_for_stage("mesh") again. -/
def c7s3 : PipelineState := prepare_for_stage true c7s2 "mesh"

/-- C7: evaluating the code on the round trip mesh → texture → mesh.  The
first two calls behave as claimed (after "texture", geometry is Unloaded
and texture Loaded), and repeating prepare("mesh") is a residency no-op;
but the final prepare("mesh") does NOT restore the geometry slot - the
sticky `_initialized` flag makes it skip `initialize()`, contradicting the
adjacent comment `# Ensure shape is loaded` - and it does not evict the
texture slot either (the texture pipeline is only moved to the CPU, so
`_texture_pipeline` stays non-None and get_status still reports it
loaded). -/
theorem prepare_mesh_round_trip_fails :
    (pipelineStatus c7s1).shape_loaded = true ∧ (pipelineStatus c7s1).texture_loaded = true
      ∧ (pipelineStatus c7s2).shape_loaded = false
      ∧ (pipelineStatus c7s2).texture_loaded = true
      ∧ prepare_for_stage true c7s1 "mesh" = c7s1
      ∧ (pipelineStatus c7s3).shape_loaded = false
      ∧ (pipelineStatus c7s3).texture_loaded = true := by decide

/-- C8: six successive approve_stage calls from Uploaded walk the fixed
table one stage per call and reach Exported; a seventh call leaves the
stage unchanged and reports next_stage = None. -/
theorem approve_six_times_reaches_exported :
    (List.range 7).map (fun k => approveIter k WorkflowStage.uploaded) = STAGE_ORDER
      ∧ approve_stage WorkflowStage.exported = (WorkflowStage.exported, none) := by decide

/-- A subscribe issued for a connection that was never connected. -/
def c9m : WSManager := WSManager.mkEmpty.subscribe 0 "j"

/-- C9 counterexample: subscribe performs no membership check, so a
subscribe for a never-connected (or already-disconnected) handle leaves a
connection in a subscription set that is absent from the all-connections
set - the claimed invariant fails for this operation sequence. -/
theorem subscribe_without_connect_dangles :
    c9m.subscriptions = [("j", [0])] ∧ c9m.connections = [] ∧ c9m.invB = false := by decide

/-- The rational 1/2, given in lowest terms so that kernel evaluation never
has to normalize. -/
def halfQ : ℚ := ⟨1, 2, by decide, by decide⟩

/-- Progress is reported at 0.5, then the job is completed with the empty
string as its error. -/
def c10q1 : JobQueue :=
  runOps 100 [.enqueue "j" "t" "p" JobPriority.normal 0, .dequeue 1,
              .updateProgress "j" halfQ "half"]

/-- The same run after complete("j", error=""). -/
def c10q2 : JobQueue := applyOp c10q1 (.complete "j" none (some "") 2)

/-- C10 counterexample: complete with the empty string supplied as the
error does not leave progress at its last reported value 0.5 - Python's
`if not error` treats "" as no error, so progress is set to 1.0 (and the
status becomes Completed, not Failed). -/
theorem complete_empty_error_sets_progress_one :
    (c10q1.find "j").map Job.progress = some halfQ
      ∧ (c10q2.find "j").map Job.progress = some 1
      ∧ (c10q2.find "j").map Job.status = some JobStatus.completed
      ∧ (c10q2.find "j").map Job.error = some (some "") := by decide

/-! Registry lemmas. -/

/-- A successful lookup survives appending entries on the right. -/
theorem lookupJob_append_of_some {l : List (String × Job)} {jobId : String} {j : Job}
    (h : lookupJob l jobId = some j) (l' : List (String × Job)) :
    lookupJob (l ++ l') jobId = some j := by
  induction l with
  | nil => simp [lookupJob] at h
  | cons p rest ih =>
    have hh : (if p.1 = jobId then some p.2 else lookupJob rest jobId) = some j := h
    show (if p.1 = jobId then some p.2 else lookupJob (rest ++ l') jobId) = some j
    by_cases hp : p.1 = jobId
    · rw [if_pos hp] at hh ⊢
      exact hh
    · rw [if_neg hp] at hh ⊢
      exact ih hh

/-- Updating the looked-up id overwrites the stored job. -/
theorem lookupJob_setJob_self {l : List (String × Job)} {jobId : String} {j : Job}
    (h : lookupJob l jobId = some j) (j' : Job) :
    lookupJob (setJob l jobId j') jobId = some j' := by
  induction l with
  | nil => simp [lookupJob] at h
  | cons p rest ih =>
    have hh : (if p.1 = jobId then some p.2 else lookupJob rest jobId) = some j := h
    show lookupJob ((if p.1 = jobId then (p.1, j') else p) :: setJob rest jobId j') jobId
        = some j'
    by_cases hp : p.1 = jobId
    · rw [if_pos hp]
      show (if p.1 = jobId then some j' else lookupJob (setJob rest jobId j') jobId) = some j'
      rw [if_pos hp]
    · rw [if_neg hp] at hh
      rw [if_neg hp]
      show (if p.1 = jobId then some p.2 else lookupJob (setJob rest jobId j') jobId) = some j'
      rw [if_neg hp]
      exact ih hh

/-- Updating a different id leaves a lookup unchanged. -/
theorem lookupJob_setJob_ne (l : List (String × Job)) {jobId jobId' : String}
    (hne : jobId' ≠ jobId) (j' : Job) :
    lookupJob (setJob l jobId j') jobId' = lookupJob l jobId' := by
  induction l with
  | nil => simp [lookupJob, setJob]
  | cons p rest ih =>
    show lookupJob ((if p.1 = jobId then (p.1, j') else p) :: setJob rest jobId j') jobId'
        = (if p.1 = jobId' then some p.2 else lookupJob rest jobId')
    by_cases hp : p.1 = jobId
    · have hp' : p.1 ≠ jobId' := fun hx => hne (hx.symm.trans hp)
      rw [if_pos hp]
      show (if p.1 = jobId' then some j' else lookupJob (setJob rest jobId j') jobId')
          = (if p.1 = jobId' then some p.2 else lookupJob rest jobId')
      rw [if_neg hp', if_neg hp']
      exact ih
    · rw [if_neg hp]
      show (if p.1 = jobId' then some p.2 else lookupJob (setJob rest jobId j') jobId')
          = (if p.1 = jobId' then some p.2 else lookupJob rest jobId')
      by_cases hp' : p.1 = jobId'
      · rw [if_pos hp', if_pos hp']
      · rw [if_neg hp', if_neg hp']
        exact ih

/-- A successful lookup exhibits a pair of the registry. -/
theorem lookupJob_mem {l : List (String × Job)} {jobId : String} {j : Job}
    (h : lookupJob l jobId = some j) : (jobId, j) ∈ l := by
  induction l with
  | nil => simp [lookupJob] at h
  | cons p rest ih =>
    have hh : (if p.1 = jobId then some p.2 else lookupJob rest jobId) = some j := h
    by_cases hp : p.1 = jobId
    · rw [if_pos hp] at hh
      have hj : p.2 = j := Option.some.inj hh
      have : p = (jobId, j) := by
        calc p = (p.1, p.2) := rfl
          _ = (jobId, j) := by rw [hp, hj]
      rw [← this]
      exact List.mem_cons_self p rest
    · rw [if_neg hp] at hh
      exact List.mem_cons_of_mem _ (ih hh)

/-- What one complete(id) call does when the job is known: terminal fields
are assigned from the error argument's truthiness, the matching counter is
incremented, and no other registry entry changes. -/
theorem complete_spec {q : JobQueue} {jobId : String} {job : Job}
    (r e : Option String) (now : Nat) (h : q.find jobId = some job) :
    (q.complete jobId r e now).find jobId = some
        { job with completedAt := some now, result := r, error := e,
                   progress := if errTruthy e then job.progress else 1,
                   status := if errTruthy e then JobStatus.failed else JobStatus.completed }
      ∧ (q.complete jobId r e now).completedCount
          = (if errTruthy e then q.completedCount else q.completedCount + 1)
      ∧ (q.complete jobId r e now).failedCount
          = (if errTruthy e then q.failedCount + 1 else q.failedCount)
      ∧ (∀ jobId', jobId' ≠ jobId → (q.complete jobId r e now).find jobId' = q.find jobId')
      ∧ (q.complete jobId r e now).jobs.length = q.jobs.length := by
  have h' : lookupJob q.jobs jobId = some job := h
  simp only [JobQueue.complete, JobQueue.find, h']
  split
  · exact ⟨lookupJob_setJob_self h' _, rfl, rfl,
      fun jobId' hne => lookupJob_setJob_ne q.jobs hne _, by simp [setJob]⟩
  · exact ⟨lookupJob_setJob_self h' _, rfl, rfl,
      fun jobId' hne => lookupJob_setJob_ne q.jobs hne _, by simp [setJob]⟩

/-- C4: cancel(id) returns true exactly when the job exists with status
Pending; in that case the job is rewritten to Cancelled with a completion
timestamp and the synthetic error string, every other registry entry and
all remaining queue state are untouched; in every other case it returns
false and the whole state is unchanged. -/
theorem cancel_iff_pending (q : JobQueue) (jobId : String) (now : Nat) :
    ((q.cancel jobId now).1 = true
        ↔ ∃ job, q.find jobId = some job ∧ job.status = JobStatus.pending)
      ∧ ((q.cancel jobId now).1 = false → (q.cancel jobId now).2 = q)
      ∧ (∀ job, q.find jobId = some job → job.status = JobStatus.pending →
          (q.cancel jobId now).2.find jobId = some
              { job with status := JobStatus.cancelled, completedAt := some now,
                         error := some "Cancelled by user" }
            ∧ (∀ jobId', jobId' ≠ jobId → (q.cancel jobId now).2.find jobId' = q.find jobId')
            ∧ (q.cancel jobId now).2.queue = q.queue
            ∧ (q.cancel jobId now).2.currentJob = q.currentJob
            ∧ (q.cancel jobId now).2.completedCount = q.completedCount
            ∧ (q.cancel jobId now).2.failedCount = q.failedCount) := by
  cases hq : q.find jobId with
  | none =>
    have hq' : lookupJob q.jobs jobId = none := hq
    have hc : q.cancel jobId now = (false, q) := by
      simp only [JobQueue.cancel, JobQueue.find, hq']
    rw [hc]
    exact ⟨by simp, fun _ => rfl, fun job hfind => Option.noConfusion hfind⟩
  | some job =>
    have hq' : lookupJob q.jobs jobId = some job := hq
    by_cases hstat : job.status = JobStatus.pending
    · have hcond : ¬job.status ≠ JobStatus.pending := fun h => h hstat
      have hc : q.cancel jobId now =
          (true, { q with jobs := setJob q.jobs jobId (cancelledJob job now) }) := by
        simp only [JobQueue.cancel, JobQueue.find, hq', if_neg hcond]
      rw [hc]
      refine ⟨⟨fun _ => ⟨job, rfl, hstat⟩, fun _ => rfl⟩, fun h => by simp at h, ?_⟩
      intro job0 hfind hst
      have hj : job = job0 := Option.some.inj hfind
      subst hj
      exact ⟨lookupJob_setJob_self hq' _,
        fun jobId' hne => lookupJob_setJob_ne q.jobs hne _, rfl, rfl, rfl, rfl⟩
    · have hcond : job.status ≠ JobStatus.pending := hstat
      have hc : q.cancel jobId now = (false, q) := by
        simp only [JobQueue.cancel, JobQueue.find, hq', if_pos hcond]
      rw [hc]
      refine ⟨?_, fun _ => rfl, fun job0 hfind hst => ?_⟩
      · constructor
        · intro h
          simp at h
        · rintro ⟨job0, hfind, hst⟩
          have hj : job = job0 := Option.some.inj hfind
          rw [← hj] at hst
          exact absurd hst hstat
      · have hj : job = job0 := Option.some.inj hfind
        rw [← hj] at hst
        exact absurd hst hstat

/-- The state holding the single Pending job "j". -/
def c4q : JobQueue := runOps 100 [.enqueue "j" "t" "p" JobPriority.normal 0]

/-- The Job record registered under "j" in `c4q`. -/
def c4job : Job :=
  { id := "j", jobType := "t", payload := "p", priority := JobPriority.normal, createdAt := 0 }

/-- The state in which job "k" is Processing (not cancellable). -/
def c4p : JobQueue := runOps 100 [.enqueue "k" "t" "p" JobPriority.normal 0, .dequeue 1]

/-- Witness for C4 at concrete states: cancelling the Pending job "j"
returns true; cancelling the Processing job "k" returns false and leaves
the state unchanged. -/
theorem cancel_iff_pending_witness :
    (c4q.cancel "j" 5).1 = true ∧ (c4p.cancel "k" 6).1 = false
      ∧ (c4p.cancel "k" 6).2 = c4p :=
  ⟨((cancel_iff_pending c4q "j" 5).1).mpr ⟨c4job, by decide, by decide⟩, by decide,
   (cancel_iff_pending c4p "k" 6).2.1 (by decide)⟩

/-- C5 amended: a second complete(id) is not a no-op.  With no error on
either call, the job's terminal status stays Completed, but the completed
counter is incremented on both calls: it ends two above its value before
the first call. -/
theorem complete_twice_recounts (q : JobQueue) (jobId : String) (job : Job)
    (r1 r2 : Option String) (n1 n2 : Nat) (h : q.find jobId = some job) :
    ((q.complete jobId r1 none n1).complete jobId r2 none n2).completedCount
        = q.completedCount + 2
      ∧ (((q.complete jobId r1 none n1).complete jobId r2 none n2).find jobId).map Job.status
        = some JobStatus.completed := by
  obtain ⟨hf1, hc1, _, _, _⟩ := complete_spec r1 none n1 h
  obtain ⟨hf2, hc2, _, _, _⟩ := complete_spec r2 none n2 hf1
  constructor
  · rw [hc2, hc1]
    simp [errTruthy]
  · rw [hf2]
    simp [errTruthy]

/-- The state holding the Processing job "j" (enqueued, then dequeued). -/
def c5base : JobQueue :=
  runOps 100 [.enqueue "j" "t" "p" JobPriority.normal 0, .dequeue 1]

/-- The Job record registered under "j" in `c5base`. -/
def c5job : Job :=
  { id := "j", jobType := "t", payload := "p", priority := JobPriority.normal,
    createdAt := 0, startedAt := some 1, status := JobStatus.processing }

/-- Witness for the amended C5 at a concrete state. -/
theorem complete_twice_recounts_witness :
    ((c5base.complete "j" none none 2).complete "j" none none 3).completedCount
        = c5base.completedCount + 2
      ∧ (((c5base.complete "j" none none 2).complete "j" none none 3).find "j").map Job.status
        = some JobStatus.completed :=
  complete_twice_recounts c5base "j" c5job none none 2 3 (by decide)

/-- C10 amended: complete(id) on a known job sets progress to exactly 1.0
precisely when the error argument is falsy (None or the empty string, by
Python truthiness), and leaves progress at its previous value precisely
when the error string is non-empty - in which case the status becomes
Failed rather than Completed. -/
theorem complete_progress_truthiness (q : JobQueue) (jobId : String) (job : Job)
    (r e : Option String) (now : Nat) (h : q.find jobId = some job) :
    ((q.complete jobId r e now).find jobId).map Job.progress
        = some (if errTruthy e then job.progress else 1)
      ∧ ((q.complete jobId r e now).find jobId).map Job.status
        = some (if errTruthy e then JobStatus.failed else JobStatus.completed) := by
  obtain ⟨hf, _, _, _, _⟩ := complete_spec r e now h
  rw [hf]
  exact ⟨rfl, rfl⟩

/-- The Job record registered under "j" in `c10q1` (Processing, progress
last reported as 0.5). -/
def c10job : Job :=
  { id := "j", jobType := "t", payload := "p", priority := JobPriority.normal,
    createdAt := 0, startedAt := some 1, status := JobStatus.processing,
    progress := halfQ, stage := "half" }

/-- Witness for the amended C10 at a concrete state, with the truthy error
"boom": progress is preserved and the job fails. -/
theorem complete_progress_truthiness_witness :
    ((c10q1.complete "j" none (some "boom") 9).find "j").map Job.progress
        = some (if errTruthy (some "boom") then c10job.progress else 1)
      ∧ ((c10q1.complete "j" none (some "boom") 9).find "j").map Job.status
        = some (if errTruthy (some "boom") then JobStatus.failed else JobStatus.completed) :=
  complete_progress_truthiness c10q1 "j" c10job none (some "boom") 9 (by decide)

/-- Every registry entry has exactly one of the five statuses, so the five
per-status counts partition the registry. -/
theorem count_by_status_partition (l : List (String × Job)) :
    l.countP (fun p => p.2.status == JobStatus.pending)
      + l.countP (fun p => p.2.status == JobStatus.processing)
      + l.countP (fun p => p.2.status == JobStatus.completed)
      + l.countP (fun p => p.2.status == JobStatus.failed)
      + l.countP (fun p => p.2.status == JobStatus.cancelled) = l.length := by
  induction l with
  | nil => rfl
  | cons p rest ih =>
    simp only [List.countP_cons, List.length_cons]
    cases hs : p.2.status <;> simp [hs] <;> omega

/-- C6 amended: after any interleaving of the queue operations, the
pending figure reported by get_status is the number of Pending jobs, and
the five per-status registry counts (Pending, Processing, Completed,
Failed, Cancelled) partition total_jobs.  The reported
processing/completed/failed figures are counters, not per-status counts,
and need not account for the remaining jobs (see the counterexample). -/
theorem get_status_partitions_total (maxSize : Nat) (ops : List QOp) :
    ((runOps maxSize ops).get_status).pendingCount
        = (runOps maxSize ops).jobs.countP (fun p => p.2.status == JobStatus.pending)
      ∧ ((runOps maxSize ops).get_status).pendingCount
          + (runOps maxSize ops).jobs.countP (fun p => p.2.status == JobStatus.processing)
          + (runOps maxSize ops).jobs.countP (fun p => p.2.status == JobStatus.completed)
          + (runOps maxSize ops).jobs.countP (fun p => p.2.status == JobStatus.failed)
          + (runOps maxSize ops).jobs.countP (fun p => p.2.status == JobStatus.cancelled)
        = ((runOps maxSize ops).get_status).totalJobs :=
  ⟨rfl, count_by_status_partition _⟩

/-- A dequeue touches the registry only by switching the popped job to
Processing: every previously registered job is still registered, either
unchanged or as its Processing version. -/
theorem dequeueLoop_find {now : Nat} :
    ∀ {fuel : Nat} {q : JobQueue} {j : Job} {q' : JobQueue},
      JobQueue.dequeueLoop now fuel q = some (j, q') →
      ∀ {jobId : String} {job : Job}, lookupJob q.jobs jobId = some job →
        ∃ job', lookupJob q'.jobs jobId = some job'
          ∧ (job' = job ∨ job'.status = JobStatus.processing) := by
  intro fuel
  induction fuel with
  | zero =>
    intro q j q' h
    exact absurd h (by simp [JobQueue.dequeueLoop])
  | succ n ih =>
    intro q j q' h jobId job hfind
    cases hp : popMin q.queue with
    | none =>
      rw [JobQueue.dequeueLoop, hp] at h
      exact Option.noConfusion h
    | some pr =>
      obtain ⟨e, rest⟩ := pr
      rw [JobQueue.dequeueLoop, hp] at h
      have h2 : (match lookupJob q.jobs e.id with
          | none => JobQueue.dequeueLoop now n { q with queue := rest }
          | some job =>
            if job.status = JobStatus.cancelled then
              JobQueue.dequeueLoop now n { q with queue := rest }
            else
              some (processingJob job now,
                { q with queue := rest, jobs := setJob q.jobs e.id (processingJob job now),
                         currentJob := some e.id })) = some (j, q') := h
      cases hl : lookupJob q.jobs e.id with
      | none =>
        rw [hl] at h2
        exact ih h2 hfind
      | some job0 =>
        rw [hl] at h2
        have h3 : (if job0.status = JobStatus.cancelled then
            JobQueue.dequeueLoop now n { q with queue := rest }
          else
            some (processingJob job0 now,
              { q with queue := rest, jobs := setJob q.jobs e.id (processingJob job0 now),
                       currentJob := some e.id })) = some (j, q') := h2
        by_cases hc : job0.status = JobStatus.cancelled
        · rw [if_pos hc] at h3
          exact ih h3 hfind
        · rw [if_neg hc] at h3
          have h4 := Option.some.inj h3
          have hq' : q' =
              ({ q with queue := rest,
                        jobs := setJob q.jobs e.id (processingJob job0 now),
                        currentJob := some e.id } : JobQueue) :=
            (congrArg Prod.snd h4).symm
          rw [hq']
          by_cases hid : jobId = e.id
          · subst hid
            exact ⟨processingJob job0 now, lookupJob_setJob_self hl _, Or.inr rfl⟩
          · exact ⟨job, by rw [lookupJob_setJob_ne q.jobs hid]; exact hfind, Or.inl rfl⟩

/-- Whatever the outcome of enqueue (success, duplicate, or blocking on a
full queue), the observable state either is untouched or its registry
gains exactly the new job's entry at the end. -/
theorem enqueue_state_jobs (q : JobQueue) (jobId jobType payload : String)
    (priority : JobPriority) (now : Nat) :
    (q.enqueue jobId jobType payload priority now).state = q
      ∨ (q.enqueue jobId jobType payload priority now).state.jobs
          = q.jobs ++ [(jobId, newJob jobId jobType payload priority now)] := by
  cases hdup : (q.find jobId).isSome with
  | true =>
    left
    simp [JobQueue.enqueue, hdup, EnqueueResult.state]
  | false =>
    right
    simp only [JobQueue.enqueue, hdup, Bool.false_eq_true, if_false]
    split
    · rfl
    · rfl

/-- Each operation keeps every registered job registered, and can change a
job's status only to a non-Pending one. -/
theorem applyOp_find_status (q : JobQueue) (op : QOp) {jobId : String} {job : Job}
    (h : lookupJob q.jobs jobId = some job) :
    ∃ job', lookupJob (applyOp q op).jobs jobId = some job'
      ∧ (job'.status = job.status ∨ job'.status ≠ JobStatus.pending) := by
  cases op with
  | enqueue jobId' jobType payload priority now =>
    show ∃ job', lookupJob (q.enqueue jobId' jobType payload priority now).state.jobs jobId
        = some job' ∧ (job'.status = job.status ∨ job'.status ≠ JobStatus.pending)
    cases enqueue_state_jobs q jobId' jobType payload priority now with
    | inl he =>
      rw [he]
      exact ⟨job, h, Or.inl rfl⟩
    | inr he =>
      rw [he]
      exact ⟨job, lookupJob_append_of_some h _, Or.inl rfl⟩
  | dequeue now =>
    show ∃ job', lookupJob (match q.dequeue now with
        | none => q
        | some (_, q') => q').jobs jobId
        = some job' ∧ (job'.status = job.status ∨ job'.status ≠ JobStatus.pending)
    cases hd : q.dequeue now with
    | none => exact ⟨job, h, Or.inl rfl⟩
    | some pr =>
      obtain ⟨j, q'⟩ := pr
      obtain ⟨job', hfind, hor⟩ := dequeueLoop_find hd h
      refine ⟨job', hfind, hor.imp (fun he => by rw [he]) (fun hp => by rw [hp]; decide)⟩
  | complete jobId' r e now =>
    show ∃ job', lookupJob (q.complete jobId' r e now).jobs jobId
        = some job' ∧ (job'.status = job.status ∨ job'.status ≠ JobStatus.pending)
    by_cases hid : jobId = jobId'
    · subst hid
      obtain ⟨hf, _, _, _, _⟩ := complete_spec r e now (h : q.find jobId = some job)
      refine ⟨_, hf, Or.inr ?_⟩
      cases he : errTruthy e <;> simp [he]
    · cases hq2 : q.find jobId' with
      | none =>
        have hc : q.complete jobId' r e now = q := by
          have hq2' : lookupJob q.jobs jobId' = none := hq2
          simp only [JobQueue.complete, JobQueue.find, hq2']
        rw [hc]
        exact ⟨job, h, Or.inl rfl⟩
      | some job2 =>
        obtain ⟨_, _, _, hother, _⟩ := complete_spec r e now hq2
        exact ⟨job, (hother jobId hid).trans h, Or.inl rfl⟩
  | updateProgress jobId' progress stage =>
    show ∃ job', lookupJob (q.update_progress jobId' progress stage).jobs jobId
        = some job' ∧ (job'.status = job.status ∨ job'.status ≠ JobStatus.pending)
    cases hq2 : q.find jobId' with
    | none =>
      have hc : q.update_progress jobId' progress stage = q := by
        have hq2' : lookupJob q.jobs jobId' = none := hq2
        simp only [JobQueue.update_progress, JobQueue.find, hq2']
      rw [hc]
      exact ⟨job, h, Or.inl rfl⟩
    | some job2 =>
      have hq2' : lookupJob q.jobs jobId' = some job2 := hq2
      have hc : (q.update_progress jobId' progress stage).jobs
          = setJob q.jobs jobId' (progressedJob job2 progress stage) := by
        simp only [JobQueue.update_progress, JobQueue.find, hq2']
      rw [hc]
      by_cases hid : jobId = jobId'
      · subst hid
        have hj : job = job2 := Option.some.inj (h.symm.trans hq2')
        refine ⟨progressedJob job2 progress stage, lookupJob_setJob_self hq2' _, Or.inl ?_⟩
        rw [hj]
        rfl
      · exact ⟨job, by rw [lookupJob_setJob_ne q.jobs hid]; exact h, Or.inl rfl⟩
  | cancel jobId' now =>
    show ∃ job', lookupJob (q.cancel jobId' now).2.jobs jobId
        = some job' ∧ (job'.status = job.status ∨ job'.status ≠ JobStatus.pending)
    cases hq2 : q.find jobId' with
    | none =>
      have hc : q.cancel jobId' now = (false, q) := by
        have hq2' : lookupJob q.jobs jobId' = none := hq2
        simp only [JobQueue.cancel, JobQueue.find, hq2']
      rw [hc]
      exact ⟨job, h, Or.inl rfl⟩
    | some job2 =>
      have hq2' : lookupJob q.jobs jobId' = some job2 := hq2
      by_cases hst : job2.status = JobStatus.pending
      · have hcond : ¬job2.status ≠ JobStatus.pending := fun hx => hx hst
        have hc : q.cancel jobId' now
            = (true, { q with jobs := setJob q.jobs jobId' (cancelledJob job2 now) }) := by
          simp only [JobQueue.cancel, JobQueue.find, hq2', if_neg hcond]
        rw [hc]
        by_cases hid : jobId = jobId'
        · subst hid
          exact ⟨cancelledJob job2 now, lookupJob_setJob_self hq2' _,
            Or.inr (fun hx => JobStatus.noConfusion hx)⟩
        · exact ⟨job, by rw [lookupJob_setJob_ne q.jobs hid]; exact h, Or.inl rfl⟩
      · have hc : q.cancel jobId' now = (false, q) := by
          simp only [JobQueue.cancel, JobQueue.find, hq2', if_pos hst]
        rw [hc]
        exact ⟨job, h, Or.inl rfl⟩

/-- C2 amended: no job ever revisits Pending.  Once a registered job has
left the Pending status, it stays registered with a non-Pending status
through every further interleaving of enqueue, dequeue, complete,
update_progress and cancel calls.  (The full claimed one-directional
diagram fails: see the counterexample, where a job completed while still
queued is dequeued back to Processing.) -/
theorem status_never_revisits_pending (q : JobQueue) (ops : List QOp) (jobId : String)
    (job : Job) (h : q.find jobId = some job) (hnp : job.status ≠ JobStatus.pending) :
    ∃ job', (ops.foldl applyOp q).find jobId = some job'
      ∧ job'.status ≠ JobStatus.pending := by
  induction ops generalizing q job with
  | nil => exact ⟨job, h, hnp⟩
  | cons op ops ih =>
    obtain ⟨job1, h1, hs⟩ := applyOp_find_status q op h
    refine ih (applyOp q op) job1 h1 ?_
    cases hs with
    | inl he => rw [he]; exact hnp
    | inr hne => exact hne

/-- The state holding the Processing job "w". -/
def c2base : JobQueue :=
  runOps 100 [.enqueue "w" "t" "p" JobPriority.normal 0, .dequeue 1]

/-- The Job record registered under "w" in `c2base`. -/
def c2job : Job :=
  { id := "w", jobType := "t", payload := "p", priority := JobPriority.normal,
    createdAt := 0, startedAt := some 1, status := JobStatus.processing }

/-- Witness for the amended C2 at a concrete state and operation list. -/
theorem status_never_revisits_pending_witness :
    ∃ job', (([QOp.cancel "w" 5, QOp.complete "w" none none 6,
        QOp.enqueue "w" "t" "p" JobPriority.normal 7, QOp.dequeue 8,
        QOp.updateProgress "w" 0 "s"].foldl applyOp c2base).find "w") = some job'
      ∧ job'.status ≠ JobStatus.pending :=
  status_never_revisits_pending c2base _ "w" c2job (by decide) (by decide)

/-! Subscription-map invariant machinery. -/

/-- The invariant in Prop form: every connection in any subscription set is
in the all-connections set. -/
def WSInvP (m : WSManager) : Prop :=
  ∀ p ∈ m.subscriptions, ∀ w ∈ p.2, w ∈ m.connections

/-- The executable check agrees with the Prop form. -/
theorem invB_iff (m : WSManager) : m.invB = true ↔ WSInvP m := by
  simp [WSManager.invB, WSInvP, List.all_eq_true]

/-- Membership after a set-insert. -/
theorem mem_addConn {x w : Nat} {l : List Nat} : x ∈ addConn w l ↔ x ∈ l ∨ x = w := by
  by_cases h : w ∈ l
  · simp only [addConn, if_pos h]
    constructor
    · exact Or.inl
    · rintro (hx | rfl)
      · exact hx
      · exact h
  · simp [addConn, if_neg h, List.mem_append]

/-- connect preserves the invariant. -/
theorem wsinv_connect (m : WSManager) (w : Nat) (h : WSInvP m) : WSInvP (m.connect w) := by
  intro p hp x hx
  exact mem_addConn.mpr (Or.inl (h p hp x hx))

/-- disconnect preserves the invariant. -/
theorem wsinv_disconnect (m : WSManager) (w : Nat) (h : WSInvP m) :
    WSInvP (m.disconnect w) := by
  intro p hp x hx
  have hp' : p ∈ (m.subscriptions.map
      (fun p => (p.1, p.2.filter (fun x => decide (x ≠ w))))).filter
      (fun p => !p.2.isEmpty) := hp
  have hp1 := (List.mem_filter.mp hp').1
  obtain ⟨p0, hp0, hpe⟩ := List.mem_map.mp hp1
  rw [← hpe] at hx
  have hx2 := List.mem_filter.mp hx
  have hxw : x ≠ w := of_decide_eq_true hx2.2
  show x ∈ m.connections.filter (fun y => decide (y ≠ w))
  exact List.mem_filter.mpr ⟨h p0 hp0 x hx2.1, decide_eq_true hxw⟩

/-- subscribe preserves the invariant when the subscribing connection is
live at the time of the call. -/
theorem wsinv_subscribe (m : WSManager) (w : Nat) (jobId : String)
    (hw : w ∈ m.connections) (h : WSInvP m) : WSInvP (m.subscribe w jobId) := by
  intro p hp x hx
  show x ∈ m.connections
  have hcast : (m.subscribe w jobId).subscriptions
      = if (m.subscriptions.find? (fun p => p.1 == jobId)).isSome = true
        then m.subscriptions.map (fun p => if p.1 = jobId then (p.1, addConn w p.2) else p)
        else m.subscriptions ++ [(jobId, [w])] := rfl
  cases hf : (m.subscriptions.find? (fun p => p.1 == jobId)).isSome with
  | true =>
    rw [hcast, if_pos hf] at hp
    obtain ⟨p0, hp0, hpe⟩ := List.mem_map.mp hp
    by_cases hj : p0.1 = jobId
    · rw [if_pos hj] at hpe
      rw [← hpe] at hx
      cases mem_addConn.mp hx with
      | inl h2 => exact h p0 hp0 x h2
      | inr h2 => exact h2 ▸ hw
    · rw [if_neg hj] at hpe
      rw [← hpe] at hx
      exact h p0 hp0 x hx
  | false =>
    rw [hcast] at hp
    rw [hf] at hp
    simp only [Bool.false_eq_true, if_false] at hp
    rcases List.mem_append.mp hp with h2 | h2
    · exact h p h2 x hx
    · have hpj : p = (jobId, [w]) := by simpa using h2
      rw [hpj] at hx
      have hxw : x = w := by simpa using hx
      exact hxw ▸ hw

/-- unsubscribe preserves the invariant. -/
theorem wsinv_unsubscribe (m : WSManager) (w : Nat) (jobId : String) (h : WSInvP m) :
    WSInvP (m.unsubscribe w jobId) := by
  intro p hp x hx
  show x ∈ m.connections
  have hp' : p ∈ (m.subscriptions.map
      (fun p => if p.1 = jobId then (p.1, p.2.filter (fun x => decide (x ≠ w))) else p)).filter
      (fun p => !(p.1 == jobId && p.2.isEmpty)) := hp
  have hp1 := (List.mem_filter.mp hp').1
  obtain ⟨p0, hp0, hpe⟩ := List.mem_map.mp hp1
  by_cases hj : p0.1 = jobId
  · rw [if_pos hj] at hpe
    rw [← hpe] at hx
    exact h p0 hp0 x (List.mem_filter.mp hx).1
  · rw [if_neg hj] at hpe
    rw [← hpe] at hx
    exact h p0 hp0 x hx

/-- Any fold of disconnects (broadcast's lazy cleanup) preserves the
invariant. -/
theorem wsinv_foldl_disconnect (l : List Nat) :
    ∀ m : WSManager, WSInvP m → WSInvP (l.foldl WSManager.disconnect m) := by
  induction l with
  | nil => exact fun m h => h
  | cons x xs ih => exact fun m h => ih _ (wsinv_disconnect m x h)

/-- broadcast preserves the invariant, whichever sends fail. -/
theorem wsinv_broadcast (m : WSManager) (failed : List Nat) (h : WSInvP m) :
    WSInvP (m.broadcast failed) :=
  wsinv_foldl_disconnect _ m h

/-- disconnect removes the connection from every subscription set. -/
theorem disconnect_clears (m : WSManager) (w : Nat) :
    ∀ p ∈ (m.disconnect w).subscriptions, w ∉ p.2 := by
  intro p hp
  have hp' : p ∈ (m.subscriptions.map
      (fun p => (p.1, p.2.filter (fun x => decide (x ≠ w))))).filter
      (fun p => !p.2.isEmpty) := hp
  have hp1 := (List.mem_filter.mp hp').1
  obtain ⟨p0, hp0, hpe⟩ := List.mem_map.mp hp1
  rw [← hpe]
  intro hw
  exact (of_decide_eq_true (List.mem_filter.mp hw).2) rfl

/-- C9 amended: for every sequence of connect/disconnect/subscribe/
unsubscribe/broadcast operations in which each subscribe is issued for a
connection currently in the all-connections set, every connection in any
subscription set is also in the all-connections set; and removing a
connection via disconnect (used both directly and by broadcast's lazy
cleanup of failed sends) removes it from every subscription set.  Without
the subscribe guard the first part fails: see the counterexample. -/
theorem guarded_subscriptions_stay_live (m : WSManager) (h : WSReach m) :
    m.invB = true
      ∧ ∀ w, ((m.disconnect w).subscriptions.all (fun p => decide (w ∉ p.2))) = true := by
  constructor
  · rw [invB_iff]
    induction h with
    | start => exact fun p hp => absurd hp (List.not_mem_nil p)
    | connect m w hr ih => exact wsinv_connect m w ih
    | disconnect m w hr ih => exact wsinv_disconnect m w ih
    | subscribe m w jobId hr hw ih => exact wsinv_subscribe m w jobId hw ih
    | unsubscribe m w jobId hr ih => exact wsinv_unsubscribe m w jobId ih
    | broadcast m failed hr ih => exact wsinv_broadcast m failed ih
  · intro w
    rw [List.all_eq_true]
    exact fun p hp => decide_eq_true (disconnect_clears m w p hp)

/-- Witness for the amended C9: connect 0, then subscribe it; the invariant
check evaluates to true, and disconnecting 0 clears it from every set. -/
theorem guarded_subscriptions_stay_live_witness :
    ((WSManager.mkEmpty.connect 0).subscribe 0 "j").invB = true
      ∧ (((((WSManager.mkEmpty.connect 0).subscribe 0 "j").disconnect 0).subscriptions.all
          (fun p => decide ((0 : Nat) ∉ p.2)))) = true :=
  ⟨(guarded_subscriptions_stay_live _
      (WSReach.subscribe _ 0 "j" (WSReach.connect _ 0 WSReach.start) (by decide))).1,
   (guarded_subscriptions_stay_live _
      (WSReach.subscribe _ 0 "j" (WSReach.connect _ 0 WSReach.start) (by decide))).2 0⟩

/-! Priority-order machinery for C1. -/

/-- Arithmetic reading of the strict queue order. -/
theorem entryLt_eq_true_iff {a b : QEntry} :
    entryLt a b = true ↔ (a.pval < b.pval ∨ (a.pval = b.pval ∧ a.created < b.created)) := by
  unfold entryLt
  by_cases h : a.pval ≠ b.pval
  · rw [if_pos h]
    simp only [decide_eq_true_eq]
    constructor
    · exact Or.inl
    · rintro (h1 | ⟨h2, h3⟩)
      · exact h1
      · exact absurd h2 h
  · rw [if_neg h]
    push_neg at h
    simp only [decide_eq_true_eq]
    constructor
    · intro hc
      exact Or.inr ⟨h, hc⟩
    · rintro (h1 | ⟨h2, h3⟩)
      · omega
      · exact h3

/-- Arithmetic reading of the negated queue order. -/
theorem entryLt_eq_false_iff {a b : QEntry} :
    entryLt a b = false ↔ (b.pval < a.pval ∨ (a.pval = b.pval ∧ b.created ≤ a.created)) := by
  rw [Bool.eq_false_iff, Ne, entryLt_eq_true_iff]
  omega

/-- No entry is strictly below itself. -/
theorem entryLt_irrefl (a : QEntry) : entryLt a a = false := by
  rw [entryLt_eq_false_iff]
  omega

/-- The queue order is asymmetric. -/
theorem entryLt_asymm {a b : QEntry} (h : entryLt a b = true) : entryLt b a = false := by
  rw [entryLt_eq_true_iff] at h
  rw [entryLt_eq_false_iff]
  omega

/-- Negations of the queue order compose (it is a strict weak order). -/
theorem entryLt_false_trans {a b c : QEntry} (h1 : entryLt a b = false)
    (h2 : entryLt b c = false) : entryLt a c = false := by
  rw [entryLt_eq_false_iff] at h1 h2 ⊢
  omega

/-- Job.__lt__ and the entry order agree. -/
theorem job_lt_entry (a b : Job) : Job.lt a b = entryLt a.entry b.entry := by
  cases ha : a.priority <;> cases hb : b.priority <;>
    simp [Job.lt, entryLt, Job.entry, JobPriority.val, ha, hb]

/-- popMin returns nothing only on the empty list. -/
theorem popMin_eq_none_iff {l : List QEntry} : popMin l = none ↔ l = [] := by
  cases l with
  | nil => simp [popMin]
  | cons x xs =>
    constructor
    · intro h
      rw [popMin] at h
      cases hx : popMin xs with
      | none =>
        rw [hx] at h
        exact Option.noConfusion h
      | some pr =>
        obtain ⟨m, ys⟩ := pr
        rw [hx] at h
        have h' : (if entryLt m x then some (m, x :: ys) else some (x, xs)) = none := h
        by_cases hlt : entryLt m x = true
        · rw [if_pos hlt] at h'
          exact Option.noConfusion h'
        · rw [if_neg hlt] at h'
          exact Option.noConfusion h'
    · intro h
      exact List.noConfusion h

/-- What popMin pops, together with the rest, is a permutation of the
input. -/
theorem popMin_perm : ∀ {l : List QEntry} {e : QEntry} {rest : List QEntry},
    popMin l = some (e, rest) → l.Perm (e :: rest) := by
  intro l
  induction l with
  | nil =>
    intro e rest h
    exact Option.noConfusion h
  | cons x xs ih =>
    intro e rest h
    rw [popMin] at h
    cases hx : popMin xs with
    | none =>
      rw [hx] at h
      have h' : some ((x, ([] : List QEntry)) : QEntry × List QEntry) = some (e, rest) := h
      have h2 := Option.some.inj h'
      have he : e = x := (congrArg Prod.fst h2).symm
      have hr : rest = [] := (congrArg Prod.snd h2).symm
      have hxs : xs = [] := popMin_eq_none_iff.mp hx
      subst he
      subst hr
      subst hxs
      exact List.Perm.refl _
    | some pr =>
      obtain ⟨m, ys⟩ := pr
      rw [hx] at h
      have h' : (if entryLt m x then some (m, x :: ys) else some (x, xs)) = some (e, rest) := h
      have hperm : xs.Perm (m :: ys) := ih hx
      by_cases hlt : entryLt m x = true
      · rw [if_pos hlt] at h'
        have h2 := Option.some.inj h'
        have he : e = m := (congrArg Prod.fst h2).symm
        have hr : rest = x :: ys := (congrArg Prod.snd h2).symm
        subst he
        subst hr
        exact (hperm.cons x).trans (List.Perm.swap e x ys)
      · rw [if_neg hlt] at h'
        have h2 := Option.some.inj h'
        have he : e = x := (congrArg Prod.fst h2).symm
        have hr : rest = xs := (congrArg Prod.snd h2).symm
        subst he
        subst hr
        exact List.Perm.refl _

/-- popMin pops an element no other element is strictly below. -/
theorem popMin_not_lt : ∀ {l : List QEntry} {e : QEntry} {rest : List QEntry},
    popMin l = some (e, rest) → ∀ x ∈ l, entryLt x e = false := by
  intro l
  induction l with
  | nil =>
    intro e rest h
    exact Option.noConfusion h
  | cons x xs ih =>
    intro e rest h z hz
    rw [popMin] at h
    cases hx : popMin xs with
    | none =>
      rw [hx] at h
      have h' : some ((x, ([] : List QEntry)) : QEntry × List QEntry) = some (e, rest) := h
      have he : e = x := (congrArg Prod.fst (Option.some.inj h')).symm
      subst he
      have hxs : xs = [] := popMin_eq_none_iff.mp hx
      subst hxs
      have hzx : z = e := by simpa using hz
      subst hzx
      exact entryLt_irrefl z
    | some pr =>
      obtain ⟨m, ys⟩ := pr
      rw [hx] at h
      have h' : (if entryLt m x then some (m, x :: ys) else some (x, xs)) = some (e, rest) := h
      have hmin : ∀ y ∈ xs, entryLt y m = false := fun y hy => ih hx y hy
      by_cases hlt : entryLt m x = true
      · rw [if_pos hlt] at h'
        have he : e = m := (congrArg Prod.fst (Option.some.inj h')).symm
        subst he
        rcases List.mem_cons.mp hz with rfl | hzxs
        · exact entryLt_asymm hlt
        · exact hmin z hzxs
      · rw [if_neg hlt] at h'
        have he : e = x := (congrArg Prod.fst (Option.some.inj h')).symm
        subst he
        have hlt' : entryLt m e = false := Bool.eq_false_iff.mpr hlt
        rcases List.mem_cons.mp hz with rfl | hzxs
        · exact entryLt_irrefl z
        · exact entryLt_false_trans (hmin z hzxs) hlt'

/-- The coupling between two pending jobs and a queue state: both are
registered under their own ids, Pending, and present in the queue by their
immutable keys; queue entries carrying their ids are exactly their keys
(in Python the heap aliases the very same Job objects); and every registry
pair stores a job whose id field is its key (as enqueue constructs it). -/
abbrev C1Inv (a b : Job) (q : JobQueue) : Prop :=
  lookupJob q.jobs a.id = some a ∧ lookupJob q.jobs b.id = some b
    ∧ a.status = JobStatus.pending ∧ b.status = JobStatus.pending
    ∧ a.entry ∈ q.queue ∧ b.entry ∈ q.queue
    ∧ (∀ e ∈ q.queue, e.id = a.id → e = a.entry)
    ∧ (∀ e ∈ q.queue, e.id = b.id → e = b.entry)
    ∧ (∀ p ∈ q.jobs, p.2.id = p.1)

/-- One dequeue either returns job `a`, or returns a job that is neither
`a` nor `b` and re-establishes the coupling; it can never return `b` while
`a` is pending in the queue below it. -/
theorem dequeueLoop_c1 {a b : Job} (hab : entryLt a.entry b.entry = true) :
    ∀ {fuel : Nat} {q : JobQueue} {now : Nat} {j : Job} {q' : JobQueue},
      C1Inv a b q → JobQueue.dequeueLoop now fuel q = some (j, q') →
      (j.id = a.id ∨ (j.id ≠ a.id ∧ j.id ≠ b.id ∧ C1Inv a b q')) := by
  intro fuel
  induction fuel with
  | zero =>
    intro q now j q' hinv h
    exact Option.noConfusion h
  | succ n ih =>
    intro q now j q' hinv h
    obtain ⟨hfa, hfb, hsa, hsb, hqa, hqb, hca, hcb, hid⟩ := hinv
    cases hp : popMin q.queue with
    | none =>
      have hnil : q.queue = [] := popMin_eq_none_iff.mp hp
      rw [hnil] at hqa
      exact absurd hqa (List.not_mem_nil _)
    | some pr =>
      obtain ⟨e, rest⟩ := pr
      rw [JobQueue.dequeueLoop, hp] at h
      have h2 : (match lookupJob q.jobs e.id with
          | none => JobQueue.dequeueLoop now n { q with queue := rest }
          | some job =>
            if job.status = JobStatus.cancelled then
              JobQueue.dequeueLoop now n { q with queue := rest }
            else
              some (processingJob job now,
                { q with queue := rest, jobs := setJob q.jobs e.id (processingJob job now),
                         currentJob := some e.id })) = some (j, q') := h
      have hperm := popMin_perm hp
      have hmin := popMin_not_lt hp
      have he_mem : e ∈ q.queue := hperm.mem_iff.mpr (List.mem_cons_self e rest)
      by_cases hea : e.id = a.id
      · have hee : e = a.entry := hca e he_mem hea
        rw [hee] at h2
        have hfa' : lookupJob q.jobs a.entry.id = some a := hfa
        rw [hfa'] at h2
        have h3 : (if a.status = JobStatus.cancelled then
            JobQueue.dequeueLoop now n { q with queue := rest }
          else
            some (processingJob a now,
              { q with queue := rest, jobs := setJob q.jobs a.entry.id (processingJob a now),
                       currentJob := some a.entry.id })) = some (j, q') := h2
        have hnc : ¬a.status = JobStatus.cancelled := by
          rw [hsa]
          exact fun hx => JobStatus.noConfusion hx
        rw [if_neg hnc] at h3
        have hj : j = processingJob a now := (congrArg Prod.fst (Option.some.inj h3)).symm
        left
        rw [hj]
        rfl
      · by_cases heb : e.id = b.id
        · have hee : e = b.entry := hcb e he_mem heb
          have hamin : entryLt a.entry e = false := hmin a.entry hqa
          rw [hee, hab] at hamin
          exact Bool.noConfusion hamin
        · have hsub : ∀ x ∈ rest, x ∈ q.queue :=
            fun x hx => hperm.mem_iff.mpr (List.mem_cons_of_mem e hx)
          have hrest_a : a.entry ∈ rest := by
            rcases List.mem_cons.mp (hperm.mem_iff.mp hqa) with hx | hx
            · exact absurd (congrArg QEntry.id hx.symm) hea
            · exact hx
          have hrest_b : b.entry ∈ rest := by
            rcases List.mem_cons.mp (hperm.mem_iff.mp hqb) with hx | hx
            · exact absurd (congrArg QEntry.id hx.symm) heb
            · exact hx
          have hinv' : C1Inv a b { q with queue := rest } :=
            ⟨hfa, hfb, hsa, hsb, hrest_a, hrest_b,
             fun x hx hxa => hca x (hsub x hx) hxa,
             fun x hx hxb => hcb x (hsub x hx) hxb, hid⟩
          cases hl : lookupJob q.jobs e.id with
          | none =>
            rw [hl] at h2
            exact ih hinv' h2
          | some job0 =>
            rw [hl] at h2
            have h3 : (if job0.status = JobStatus.cancelled then
                JobQueue.dequeueLoop now n { q with queue := rest }
              else
                some (processingJob job0 now,
                  { q with queue := rest, jobs := setJob q.jobs e.id (processingJob job0 now),
                           currentJob := some e.id })) = some (j, q') := h2
            by_cases hcanc : job0.status = JobStatus.cancelled
            · rw [if_pos hcanc] at h3
              exact ih hinv' h3
            · rw [if_neg hcanc] at h3
              have h4 := Option.some.inj h3
              have hj : j = processingJob job0 now := (congrArg Prod.fst h4).symm
              have hq'2 : q' =
                  ({ q with queue := rest,
                            jobs := setJob q.jobs e.id (processingJob job0 now),
                            currentJob := some e.id } : JobQueue) :=
                (congrArg Prod.snd h4).symm
              have hj0 : job0.id = e.id := hid (e.id, job0) (lookupJob_mem hl)
              have hane : a.id ≠ e.id := fun hx => hea hx.symm
              have hbne : b.id ≠ e.id := fun hx => heb hx.symm
              right
              refine ⟨?_, ?_, ?_⟩
              · rw [hj]
                show job0.id ≠ a.id
                rw [hj0]
                exact hea
              · rw [hj]
                show job0.id ≠ b.id
                rw [hj0]
                exact heb
              · rw [hq'2]
                refine ⟨?_, ?_, hsa, hsb, hrest_a, hrest_b,
                  fun x hx hxa => hca x (hsub x hx) hxa,
                  fun x hx hxb => hcb x (hsub x hx) hxb, ?_⟩
                · show lookupJob (setJob q.jobs e.id (processingJob job0 now)) a.id = some a
                  rw [lookupJob_setJob_ne q.jobs hane]
                  exact hfa
                · show lookupJob (setJob q.jobs e.id (processingJob job0 now)) b.id = some b
                  rw [lookupJob_setJob_ne q.jobs hbne]
                  exact hfb
                · intro p hp
                  have hp' : p ∈ q.jobs.map
                      (fun p => if p.1 = e.id then (p.1, processingJob job0 now) else p) := hp
                  obtain ⟨p0, hp0, hpe⟩ := List.mem_map.mp hp'
                  by_cases hpid : p0.1 = e.id
                  · rw [if_pos hpid] at hpe
                    rw [← hpe]
                    show job0.id = p0.1
                    rw [hj0, hpid]
                  · rw [if_neg hpid] at hpe
                    rw [← hpe]
                    exact hid p0 hp0

/-- The ids returned by successive dequeue calls (the trace stops when a
dequeue would suspend on an empty queue). -/
def dequeueSeq : JobQueue → List Nat → List String
  | _, [] => []
  | q, now :: nows =>
    match q.dequeue now with
    | none => []
    | some (j, q') => j.id :: dequeueSeq q' nows

/-- In a trace, `x` occurs strictly before any occurrence of `y`. -/
def precedes (x y : String) : List String → Bool
  | [] => false
  | c :: l => if c = x then true else if c = y then false else precedes x y l

/-- C1: strict priority order with FIFO tie-break.  For two pending queued
jobs `a` and `b` with `a < b` under Job.__lt__ - that is, `a`'s priority
value is lower, or the priorities are equal and `a` was created earlier -
whenever `b` appears in the trace of successive dequeues, `a` appears
strictly before it, whatever state the enqueue order produced. -/
theorem dequeue_priority_fifo_order (a b : Job) (hne : a.id ≠ b.id)
    (hlt : Job.lt a b = true) :
    ∀ (nows : List Nat) (q : JobQueue), C1Inv a b q →
      b.id ∈ dequeueSeq q nows → precedes a.id b.id (dequeueSeq q nows) = true := by
  have hab : entryLt a.entry b.entry = true := by
    rw [← job_lt_entry]
    exact hlt
  intro nows
  induction nows with
  | nil =>
    intro q hinv hmem
    exact absurd hmem (List.not_mem_nil _)
  | cons now nows ih =>
    intro q hinv hmem
    rw [dequeueSeq] at hmem ⊢
    cases hd : q.dequeue now with
    | none =>
      rw [hd] at hmem
      exact absurd (show b.id ∈ ([] : List String) from hmem) (List.not_mem_nil _)
    | some pr =>
      obtain ⟨j, q'⟩ := pr
      rw [hd] at hmem
      have hmem' : b.id ∈ j.id :: dequeueSeq q' nows := hmem
      have hd' : JobQueue.dequeueLoop now q.queue.length q = some (j, q') := hd
      show precedes a.id b.id (j.id :: dequeueSeq q' nows) = true
      rcases dequeueLoop_c1 hab hinv hd' with hja | ⟨hja, hjb, hinv'⟩
      · rw [precedes, if_pos hja]
      · rw [precedes, if_neg hja, if_neg hjb]
        have hbt : b.id ∈ dequeueSeq q' nows := by
          rcases List.mem_cons.mp hmem' with hx | hx
          · exact absurd hx.symm hjb
          · exact hx
        exact ih q' hinv' hbt

/-- The spec's scenario state: jobs A (LOW), B (HIGH), C (NORMAL) enqueued
in that arrival order. -/
def c1q : JobQueue :=
  runOps 100 [.enqueue "A" "t" "p" JobPriority.low 0,
              .enqueue "B" "t" "p" JobPriority.high 1,
              .enqueue "C" "t" "p" JobPriority.normal 2]

/-- The Job record registered under "B" in `c1q`. -/
def c1a : Job := newJob "B" "t" "p" JobPriority.high 1

/-- The Job record registered under "C" in `c1q`. -/
def c1b : Job := newJob "C" "t" "p" JobPriority.normal 2

/-- Witness for C1 on the spec's scenario: with three dequeues the HIGH job
"B" precedes the NORMAL job "C" in the trace. -/
theorem dequeue_priority_fifo_order_witness :
    precedes c1a.id c1b.id (dequeueSeq c1q [10, 11, 12]) = true :=
  dequeue_priority_fifo_order c1a c1b (by decide) (by decide) [10, 11, 12] c1q
    (by decide) (by decide)

end Sweedle
